import Mathlib

/-!
Shallow embedding of the tiffin-ledger core of the Mess-Checker repository
(streamlit_app/services/tiffin_service.py): `add_tiffin`, `undo_last_tiffin`
and `get_reports`, together with the Mongo collections they touch.

Instants are modelled as minutes since an epoch (`Nat`); a calendar date is
an instant truncated to midnight.  The Mongo collections `customers` and
`logs` become lists; `_id` values become naturals handed out by a counter.
`find_one` takes the first match, `update_one`/`find_one_and_update` update
the first match, `delete_one` deletes the first match, faithful to Mongo on
single-key filters.  `find_one(sort=[('timestamp', -1)])` is modelled as the
record with the greatest timestamp, latest-inserted among ties.
-/

namespace MessChecker

/-- UNDO_WINDOW_MINUTES, default 5. -/
def UNDO_WINDOW : Nat := 5

/-- Minutes in one day. -/
def minutesPerDay : Nat := 1440

/-- Truncation of an instant to the midnight that starts its calendar day,
as `datetime(date.year, date.month, date.day)` does. -/
def dateOnly (t : Nat) : Nat := t / minutesPerDay * minutesPerDay

/-- The embedded `current_cycle` sub-document. -/
structure Cycle where
  start_date : Nat
  tiffins_taken : Int
  status : String
deriving DecidableEq, Repr

/-- The embedded `cycle_history` entry pushed at rollover. -/
structure CycleHistoryEntry where
  start_date : Nat
  end_date : Nat
  tiffins_taken : Int
  day_count : Nat
  night_count : Nat
  amount : Int
  status : String
deriving DecidableEq, Repr

/-- The embedded customer document.  `price_per_tiffin` and `cycle_limit`
are optional because `add_tiffin` reads them with `.get(..., default)`. -/
structure Customer where
  id : Nat
  name : String
  phone : String
  address : Option String
  start_date : Nat
  price_per_tiffin : Option Int
  cycle_limit : Option Int
  current_cycle : Cycle
  cycle_history : List CycleHistoryEntry
deriving DecidableEq, Repr

/-- The embedded delivery-log document inserted by `add_tiffin`. -/
structure LogRecord where
  id : Nat
  customer_id : Nat
  date : Nat
  slot : String
  timestamp : Nat
  operator : String
deriving DecidableEq, Repr

/-- The store: both collections plus the `_id` supply for new log records. -/
structure DB where
  customers : List Customer
  logs : List LogRecord
  nextId : Nat
deriving DecidableEq, Repr

/-- The errors raised by the service functions. -/
inductive TiffinError where
  | duplicateKey
  | customerNotFound
  | noLogsToUndo
  | undoWindowExpired
  | deleteFailed
deriving DecidableEq, Repr

/-- Mongo `update_one({'_id': cid}, ...)` on customers: rewrite the first
match. -/
def updateFirstCustomer (customers : List Customer) (cid : Nat)
    (f : Customer → Customer) : List Customer :=
  match customers with
  | [] => []
  | c :: rest =>
      if c.id == cid then f c :: rest else c :: updateFirstCustomer rest cid f

/-- Mongo `delete_one({'_id': i})` on logs: drop the first record with that
id. -/
def eraseFirstLog (logs : List LogRecord) (i : Nat) : List LogRecord :=
  match logs with
  | [] => []
  | l :: rest => if l.id == i then rest else l :: eraseFirstLog rest i

/-- Mongo `logs.find_one({'customer_id': cid}, sort=[('timestamp', -1)])`:
the record with the greatest timestamp, latest-inserted among equal
timestamps. -/
def findLastLog (logs : List LogRecord) (cid : Nat) : Option LogRecord :=
  match logs with
  | [] => none
  | l :: rest =>
      match findLastLog rest cid with
      | none => if l.customer_id == cid then some l else none
      | some m =>
          if l.customer_id == cid then
            if l.timestamp ≤ m.timestamp then some m else some l
          else some m

/-- The duplicate filter `{'customer_id': cid, 'date': date_only, 'slot': slot}`. -/
def dupKey (cid dateO : Nat) (slot : String) (l : LogRecord) : Bool :=
  l.customer_id == cid && l.date == dateO && l.slot == slot

/-- Increment of the live counter, Mongo `$inc` by 1. -/
def incTiffins (c : Customer) : Customer :=
  { c with current_cycle :=
      { c.current_cycle with
          tiffins_taken := c.current_cycle.tiffins_taken + 1 } }

/-- Decrement of the live counter, Mongo `$inc` by -1. -/
def decTiffins (c : Customer) : Customer :=
  { c with current_cycle :=
      { c.current_cycle with
          tiffins_taken := c.current_cycle.tiffins_taken - 1 } }

/-- Mongo `logs.count_documents` over customer, slot and the date range
[cstart, now]. -/
def slotCount (logs : List LogRecord) (cid : Nat) (s : String)
    (cstart now : Nat) : Nat :=
  (logs.filter (fun l => l.customer_id == cid && l.slot == s &&
      decide (cstart ≤ l.date) && decide (l.date ≤ now))).length

/-- The history entry pushed at rollover, built from the post-increment
customer document `updated`. -/
def rolloverEntry (logs : List LogRecord) (cid now : Nat)
    (updated : Customer) : CycleHistoryEntry :=
  { start_date := updated.current_cycle.start_date,
    end_date := now,
    tiffins_taken := updated.current_cycle.tiffins_taken,
    day_count := slotCount logs cid "day" updated.current_cycle.start_date now,
    night_count := slotCount logs cid "night" updated.current_cycle.start_date now,
    amount := updated.current_cycle.tiffins_taken *
      updated.price_per_tiffin.getD 0,
    status := "Unpaid" }

/-- The `$push cycle_history` / `$set current_cycle` rollover update. -/
def applyRollover (logs : List LogRecord) (cid now : Nat)
    (updated : Customer) : Customer :=
  { updated with
      cycle_history := updated.cycle_history ++ [rolloverEntry logs cid now updated],
      current_cycle :=
        { start_date := dateOnly now + minutesPerDay,
          tiffins_taken := 0, status := "Active" } }

/-- The log document inserted by `add_tiffin`. -/
def newLog (db : DB) (cid date : Nat) (slot operator : String)
    (now : Nat) : LogRecord :=
  { id := db.nextId, customer_id := cid, date := dateOnly date,
    slot := slot, timestamp := now, operator := operator }

/-- The service function `add_tiffin(customer_id, date, slot, operator)`
run at instant `now` (its `datetime.utcnow()`).  Returns the new store and the commit timestamp, or
the error that aborted the transaction (an error leaves the store as it
was: the whole transaction rolls back). -/
def add_tiffin (db : DB) (customer_id : Nat) (date : Nat) (slot : String)
    (operator : String) (now : Nat) : Except TiffinError (DB × Nat) :=
  if db.logs.any (dupKey customer_id (dateOnly date) slot) then
    .error .duplicateKey
  else
    let logs1 := db.logs ++ [newLog db customer_id date slot operator now]
    match db.customers.find? (fun c => c.id == customer_id) with
    | none => .error .customerNotFound
    | some c =>
        let updated := incTiffins c
        if updated.cycle_limit.getD 30 ≤ updated.current_cycle.tiffins_taken then
          .ok ({ customers := updateFirstCustomer db.customers customer_id
                   (fun _ => applyRollover logs1 customer_id now updated),
                 logs := logs1, nextId := db.nextId + 1 }, now)
        else
          .ok ({ customers := updateFirstCustomer db.customers customer_id
                   (fun _ => updated),
                 logs := logs1, nextId := db.nextId + 1 }, now)

/-- The service function `undo_last_tiffin(customer_id)` run at instant
`now`.  Returns the new store and the removed record's id. -/
def undo_last_tiffin (db : DB) (customer_id : Nat) (now : Nat) :
    Except TiffinError (DB × Nat) :=
  let cutoff := now - UNDO_WINDOW
  match findLastLog db.logs customer_id with
  | none => .error .noLogsToUndo
  | some last =>
      if last.timestamp < cutoff then .error .undoWindowExpired
      else if db.logs.any (fun l => l.id == last.id) then
        .ok ({ db with
                 logs := eraseFirstLog db.logs last.id,
                 customers := updateFirstCustomer db.customers customer_id
                   decTiffins },
              last.id)
      else .error .deleteFailed

/-- Insertion step for the date-descending sort used by `get_reports`. -/
def insertByDateDesc (l : LogRecord) : List LogRecord → List LogRecord
  | [] => [l]
  | x :: xs => if x.date ≤ l.date then l :: x :: xs else x :: insertByDateDesc l xs

/-- Stable sort by date descending, Mongo `.sort([('date', -1)])`. -/
def sortByDateDesc (ls : List LogRecord) : List LogRecord :=
  ls.foldr insertByDateDesc []

/-- The service function `get_reports(slot, start, end)`: filtered,
date-descending read. -/
def get_reports (db : DB) (slot : Option String) (startDate : Option Nat)
    (endDate : Option Nat) : List LogRecord :=
  sortByDateDesc (db.logs.filter (fun l =>
    (match slot with
     | some s => if s == "day" || s == "night" then l.slot == s else true
     | none => true) &&
    (match startDate, endDate with
     | some a, some b => decide (a ≤ l.date) && decide (l.date ≤ b)
     | _, _ => true)))

/-! ### Derived notions used to state the spec's claims -/

/-- Number of extant delivery records of a customer dated on or after `s`. -/
def countSince (db : DB) (cid s : Nat) : Nat :=
  (db.logs.filter (fun l => l.customer_id == cid && decide (s ≤ l.date))).length

/-- At most one record per (customer_id, date, slot), the property the unique
index on `logs` enforces. -/
def KeyUnique (logs : List LogRecord) : Prop :=
  List.Pairwise (fun a b =>
    ¬(a.customer_id = b.customer_id ∧ a.date = b.date ∧ a.slot = b.slot)) logs

/-- One user action against a fixed customer. -/
inductive Op where
  | record (date : Nat) (slot operator : String) (now : Nat)
  | undo (now : Nat)
deriving DecidableEq, Repr

/-- One successful step in which a `record` is only taken when it does not
trigger a rollover and its normalized date is not before the live cycle's
start_date. -/
def stepNoRollover (cid : Nat) (db : DB) (op : Op) : Option DB :=
  match op with
  | .record date slot operator now =>
      match db.customers.find? (fun x => x.id == cid) with
      | some c =>
          if c.current_cycle.tiffins_taken + 1 < c.cycle_limit.getD 30 ∧
              c.current_cycle.start_date ≤ dateOnly date then
            match add_tiffin db cid date slot operator now with
            | .ok (db1, _) => some db1
            | .error _ => none
          else none
      | none => none
  | .undo now =>
      match undo_last_tiffin db cid now with
      | .ok (db1, _) => some db1
      | .error _ => none

/-- Run a sequence of rollover-free, non-backdated successful operations. -/
def runNoRollover (cid : Nat) : DB → List Op → Option DB
  | db, [] => some db
  | db, op :: ops =>
      match stepNoRollover cid db op with
      | some db1 => runNoRollover cid db1 ops
      | none => none

/-- One successful step in which an `undo` is only taken while the live
counter is at least 1. -/
def stepGuardedUndo (cid : Nat) (db : DB) (op : Op) : Option DB :=
  match op with
  | .record date slot operator now =>
      match add_tiffin db cid date slot operator now with
      | .ok (db1, _) => some db1
      | .error _ => none
  | .undo now =>
      match db.customers.find? (fun x => x.id == cid) with
      | some c =>
          if 1 ≤ c.current_cycle.tiffins_taken then
            match undo_last_tiffin db cid now with
            | .ok (db1, _) => some db1
            | .error _ => none
          else none
      | none => none

/-- Run a sequence of successful operations whose undos all happen while the
counter is at least 1. -/
def runGuardedUndo (cid : Nat) : DB → List Op → Option DB
  | db, [] => some db
  | db, op :: ops =>
      match stepGuardedUndo cid db op with
      | some db1 => runGuardedUndo cid db1 ops
      | none => none

/-! ### Concrete fixtures (used by witnesses and counterexamples) -/

/-- A fresh customer with cycle_limit 2 and price 10, as in the repository's
rollover test. -/
def sampleCustomer : Customer :=
  { id := 1, name := "Ramesh", phone := "9999999999", address := none,
    start_date := 0, price_per_tiffin := some 10, cycle_limit := some 2,
    current_cycle := { start_date := 0, tiffins_taken := 0, status := "Active" },
    cycle_history := [] }

def sampleDB : DB := { customers := [sampleCustomer], logs := [], nextId := 0 }

/-- State of `sampleDB` after one day-slot delivery recorded at instant 30. -/
def sampleDB1 : DB :=
  { customers := [{ sampleCustomer with
      current_cycle := { start_date := 0, tiffins_taken := 1, status := "Active" } }],
    logs := [{ id := 0, customer_id := 1, date := 0, slot := "day",
               timestamp := 30, operator := "staff" }],
    nextId := 1 }

/-- A fresh customer with cycle_limit 1 (any delivery triggers rollover). -/
def limit1Customer : Customer :=
  { id := 3, name := "Limit", phone := "8", address := none,
    start_date := 0, price_per_tiffin := some 10, cycle_limit := some 1,
    current_cycle := { start_date := 0, tiffins_taken := 0, status := "Active" },
    cycle_history := [] }

def limit1DB : DB := { customers := [limit1Customer], logs := [], nextId := 0 }

/-- State of `limit1DB` after one day-slot delivery at instant 10: the
rollover has archived the cycle and reset the counter. -/
def limit1DBrolled : DB :=
  { customers := [{ limit1Customer with
      current_cycle := { start_date := 1440, tiffins_taken := 0, status := "Active" },
      cycle_history := [{ start_date := 0, end_date := 10, tiffins_taken := 1,
                          day_count := 1, night_count := 0, amount := 10,
                          status := "Unpaid" }] }],
    logs := [{ id := 0, customer_id := 3, date := 0, slot := "day",
               timestamp := 10, operator := "staff" }],
    nextId := 1 }

/-- State of `limit1DBrolled` after undoing that delivery: the counter
is -1. -/
def limit1DBneg : DB :=
  { customers := [{ limit1Customer with
      current_cycle := { start_date := 1440, tiffins_taken := -1, status := "Active" },
      cycle_history := [{ start_date := 0, end_date := 10, tiffins_taken := 1,
                          day_count := 1, night_count := 0, amount := 10,
                          status := "Unpaid" }] }],
    logs := [], nextId := 1 }

/-- A customer whose live cycle starts at day 1 (instant 1440), so that a
delivery can be recorded with a date before the cycle start. -/
def lateCycleCustomer : Customer :=
  { id := 4, name := "Late", phone := "7", address := none,
    start_date := 1440, price_per_tiffin := some 10, cycle_limit := some 30,
    current_cycle := { start_date := 1440, tiffins_taken := 0, status := "Active" },
    cycle_history := [] }

def lateCycleDB : DB :=
  { customers := [lateCycleCustomer], logs := [], nextId := 0 }

/-- A customer document lacking a cycle_limit value, 29 tiffins into the
live cycle. -/
def noLimitCustomer : Customer :=
  { id := 5, name := "NoLimit", phone := "6", address := none,
    start_date := 0, price_per_tiffin := some 10, cycle_limit := none,
    current_cycle := { start_date := 0, tiffins_taken := 29, status := "Active" },
    cycle_history := [] }

def noLimitDB : DB := { customers := [noLimitCustomer], logs := [], nextId := 0 }

/-- Same customer document, 28 tiffins into the live cycle. -/
def noLimitDB28 : DB :=
  { customers := [{ noLimitCustomer with
      current_cycle := { start_date := 0, tiffins_taken := 28, status := "Active" } }],
    logs := [], nextId := 0 }

/-- A store holding one delivery record created at instant 100. -/
def loggedCustomer : Customer :=
  { id := 6, name := "Logged", phone := "5", address := none,
    start_date := 0, price_per_tiffin := some 10, cycle_limit := some 30,
    current_cycle := { start_date := 0, tiffins_taken := 1, status := "Active" },
    cycle_history := [] }

def loggedDB : DB :=
  { customers := [loggedCustomer],
    logs := [{ id := 0, customer_id := 6, date := 0, slot := "day",
               timestamp := 100, operator := "staff" }],
    nextId := 1 }

/-- State of `lateCycleDB` after recording a delivery dated before the
cycle start: the counter is 1 but no record lies in [start_date, ∞). -/
def lateCycleDBafter : DB :=
  { customers := [{ lateCycleCustomer with
      current_cycle := { start_date := 1440, tiffins_taken := 1,
                         status := "Active" } }],
    logs := [{ id := 0, customer_id := 4, date := 0, slot := "day",
               timestamp := 1500, operator := "staff" }],
    nextId := 1 }

/-- State of `sampleDB` after record, undo, record (no rollover anywhere). -/
def sampleDBroundtrip : DB :=
  { customers := [{ sampleCustomer with
      current_cycle := { start_date := 0, tiffins_taken := 1,
                         status := "Active" } }],
    logs := [{ id := 1, customer_id := 1, date := 0, slot := "night",
               timestamp := 20, operator := "staff" }],
    nextId := 2 }

/-- State of `sampleDB` after record, record (rollover), record, undo: the
guarded sequence of C8's amended claim. -/
def sampleDBguarded : DB :=
  { customers := [{ sampleCustomer with
      current_cycle := { start_date := 1440, tiffins_taken := 0,
                         status := "Active" },
      cycle_history := [{ start_date := 0, end_date := 20, tiffins_taken := 2,
                          day_count := 1, night_count := 1, amount := 20,
                          status := "Unpaid" }] }],
    logs := [{ id := 0, customer_id := 1, date := 0, slot := "day",
               timestamp := 10, operator := "staff" },
             { id := 1, customer_id := 1, date := 0, slot := "night",
               timestamp := 20, operator := "staff" }],
    nextId := 3 }

/-- The inductive invariant behind the spec's counter-consistency claim:
the live counter equals the count of extant records dated in the live
cycle, every record of the customer is dated in the live cycle, and log
ids are unique and below the id supply. -/
def CounterInv (db : DB) (cid s : Nat) : Prop :=
  (∃ c, db.customers.find? (fun x => x.id == cid) = some c ∧
    c.current_cycle.start_date = s ∧
    c.current_cycle.tiffins_taken = (countSince db cid s : Int)) ∧
  (∀ l ∈ db.logs, l.customer_id = cid → s ≤ l.date) ∧
  (db.logs.map LogRecord.id).Nodup ∧
  (∀ l ∈ db.logs, l.id < db.nextId)

/-! ### Helper lemmas about the store primitives -/

theorem updateFirstCustomer_find? (l : List Customer) (cid : Nat)
    (f : Customer → Customer) (c : Customer)
    (h : l.find? (fun x => x.id == cid) = some c) (hf : (f c).id = c.id) :
    (updateFirstCustomer l cid f).find? (fun x => x.id == cid) = some (f c) := by
  induction l with
  | nil => simp [List.find?] at h
  | cons a rest ih =>
      by_cases ha : (a.id == cid) = true
      · simp only [List.find?_cons, ha] at h
        injection h with h
        subst h
        rw [updateFirstCustomer, if_pos ha]
        have hfc : ((f a).id == cid) = true := by rw [hf]; exact ha
        simp only [List.find?_cons, hfc]
      · simp only [List.find?_cons, ha] at h
        rw [updateFirstCustomer, if_neg ha]
        simp only [List.find?_cons, ha]
        exact ih h

theorem updateFirstCustomer_self (l : List Customer) (cid : Nat) (c : Customer)
    (h : l.find? (fun x => x.id == cid) = some c) :
    updateFirstCustomer l cid (fun _ => c) = l := by
  induction l with
  | nil => simp [List.find?] at h
  | cons a rest ih =>
      by_cases ha : (a.id == cid) = true
      · simp only [List.find?_cons, ha] at h
        injection h with h
        subst h
        rw [updateFirstCustomer, if_pos ha]
      · simp only [List.find?_cons, ha] at h
        rw [updateFirstCustomer, if_neg ha, ih h]

theorem updateFirstCustomer_comp (l : List Customer) (cid : Nat)
    (f g : Customer → Customer)
    (hf : ∀ x, (x.id == cid) = true → ((f x).id == cid) = true) :
    updateFirstCustomer (updateFirstCustomer l cid f) cid g =
      updateFirstCustomer l cid (fun x => g (f x)) := by
  induction l with
  | nil => rfl
  | cons a rest ih =>
      by_cases ha : (a.id == cid) = true
      · rw [updateFirstCustomer, if_pos ha, updateFirstCustomer, updateFirstCustomer,
          if_pos ha, if_pos (hf a ha)]
      · rw [updateFirstCustomer, if_neg ha, updateFirstCustomer, updateFirstCustomer,
          if_neg ha, if_neg ha, ih]

theorem updateFirstCustomer_of_find?_none (l : List Customer) (cid : Nat)
    (f : Customer → Customer)
    (h : l.find? (fun x => x.id == cid) = none) :
    updateFirstCustomer l cid f = l := by
  induction l with
  | nil => rfl
  | cons a rest ih =>
      by_cases ha : (a.id == cid) = true
      · simp [List.find?_cons, ha] at h
      · simp only [List.find?_cons, ha] at h
        rw [updateFirstCustomer, if_neg ha, ih h]

theorem findLastLog_eq_none (logs : List LogRecord) (cid : Nat)
    (h : ∀ l ∈ logs, l.customer_id ≠ cid) : findLastLog logs cid = none := by
  induction logs with
  | nil => rfl
  | cons a rest ih =>
      have ha : (a.customer_id == cid) = false := by
        simp [h a (by simp)]
      simp only [findLastLog, ih (fun l hl => h l (List.mem_cons_of_mem a hl)), ha]
      simp

theorem findLastLog_mem (logs : List LogRecord) (cid : Nat) (m : LogRecord)
    (h : findLastLog logs cid = some m) : m ∈ logs ∧ m.customer_id = cid := by
  induction logs generalizing m with
  | nil => simp [findLastLog] at h
  | cons a rest ih =>
      rw [findLastLog] at h
      cases hrest : findLastLog rest cid with
      | none =>
          simp only [hrest] at h
          by_cases ha : (a.customer_id == cid) = true
          · rw [if_pos ha] at h
            injection h with h
            subst h
            exact ⟨by simp, eq_of_beq ha⟩
          · rw [if_neg ha] at h
            exact absurd h (by simp)
      | some m' =>
          simp only [hrest] at h
          have hm' := ih m' hrest
          by_cases ha : (a.customer_id == cid) = true
          · rw [if_pos ha] at h
            by_cases hts : a.timestamp ≤ m'.timestamp
            · rw [if_pos hts] at h
              injection h with h
              subst h
              exact ⟨List.mem_cons_of_mem a hm'.1, hm'.2⟩
            · rw [if_neg hts] at h
              injection h with h
              subst h
              exact ⟨by simp, eq_of_beq ha⟩
          · rw [if_neg ha] at h
            injection h with h
            subst h
            exact ⟨List.mem_cons_of_mem a hm'.1, hm'.2⟩

theorem findLastLog_isSome (logs : List LogRecord) (cid : Nat) (l : LogRecord)
    (hl : l ∈ logs) (hc : l.customer_id = cid) :
    ∃ m, findLastLog logs cid = some m := by
  induction logs with
  | nil => simp at hl
  | cons a rest ih =>
      rw [findLastLog]
      cases hrest : findLastLog rest cid with
      | none =>
          rcases List.mem_cons.mp hl with hla | hlr
          · subst hla
            simp only [if_pos (show (l.customer_id == cid) = true by simp [hc])]
            exact ⟨l, rfl⟩
          · rcases ih hlr with ⟨m, hm⟩
            rw [hm] at hrest
            exact absurd hrest (by simp)
      | some m' =>
          by_cases ha : (a.customer_id == cid) = true
          · simp only [ha, if_true]
            by_cases hts : a.timestamp ≤ m'.timestamp
            · rw [if_pos hts]; exact ⟨m', rfl⟩
            · rw [if_neg hts]; exact ⟨a, rfl⟩
          · simp only [ha, if_false]
            exact ⟨m', rfl⟩

theorem findLastLog_maximal (logs : List LogRecord) (cid : Nat) (m : LogRecord)
    (h : findLastLog logs cid = some m) :
    ∀ l ∈ logs, l.customer_id = cid → l.timestamp ≤ m.timestamp := by
  induction logs generalizing m with
  | nil => simp [findLastLog] at h
  | cons a rest ih =>
      rw [findLastLog] at h
      intro l hl hlcid
      cases hrest : findLastLog rest cid with
      | none =>
          simp only [hrest] at h
          rcases List.mem_cons.mp hl with hla | hlr
          · subst hla
            rw [if_pos (by simp [hlcid])] at h
            injection h with h
            subst h
            exact le_refl _
          · rcases findLastLog_isSome rest cid l hlr hlcid with ⟨m', hm'⟩
            rw [hm'] at hrest
            exact absurd hrest (by simp)
      | some m' =>
          simp only [hrest] at h
          rcases List.mem_cons.mp hl with hla | hlr
          · subst hla
            rw [if_pos (by simp [hlcid])] at h
            by_cases hts : l.timestamp ≤ m'.timestamp
            · rw [if_pos hts] at h
              injection h with h
              subst h
              exact hts
            · rw [if_neg hts] at h
              injection h with h
              subst h
              exact le_refl _
          · have hle := ih m' hrest l hlr hlcid
            by_cases ha : (a.customer_id == cid) = true
            · rw [if_pos ha] at h
              by_cases hts : a.timestamp ≤ m'.timestamp
              · rw [if_pos hts] at h
                injection h with h
                subst h
                exact hle
              · rw [if_neg hts] at h
                injection h with h
                subst h
                exact le_trans hle (le_of_not_le hts)
            · rw [if_neg ha] at h
              injection h with h
              subst h
              exact hle

theorem findLastLog_append_last (logs : List LogRecord) (cid : Nat)
    (m : LogRecord) (hm : m.customer_id = cid)
    (hts : ∀ l ∈ logs, l.timestamp ≤ m.timestamp) :
    findLastLog (logs ++ [m]) cid = some m := by
  induction logs with
  | nil =>
      simp only [List.nil_append, findLastLog]
      rw [if_pos (by simp [hm])]
  | cons a rest ih =>
      have hrest := ih (fun l hl => hts l (List.mem_cons_of_mem a hl))
      rw [List.cons_append, findLastLog]
      simp only [hrest]
      by_cases ha : (a.customer_id == cid) = true
      · rw [if_pos ha, if_pos (hts a (by simp))]
      · rw [if_neg ha]

theorem eraseFirstLog_append_new (logs : List LogRecord) (m : LogRecord)
    (h : ∀ l ∈ logs, l.id ≠ m.id) :
    eraseFirstLog (logs ++ [m]) m.id = logs := by
  induction logs with
  | nil =>
      simp only [List.nil_append, eraseFirstLog]
      rw [if_pos (by simp)]
  | cons a rest ih =>
      rw [List.cons_append, eraseFirstLog,
        if_neg (by simp [h a (by simp)]),
        ih (fun l hl => h l (List.mem_cons_of_mem a hl))]

theorem eraseFirstLog_decomp (logs : List LogRecord) (m : LogRecord)
    (hm : m ∈ logs) (hnd : (logs.map LogRecord.id).Nodup) :
    ∃ pre post, logs = pre ++ m :: post ∧
      eraseFirstLog logs m.id = pre ++ post ∧ m ∉ pre ++ post := by
  induction logs with
  | nil => simp at hm
  | cons a rest ih =>
      simp only [List.map_cons, List.nodup_cons] at hnd
      by_cases ha : (a.id == m.id) = true
      · have ham : a = m := by
          rcases List.mem_cons.mp hm with h | h
          · exact h.symm
          · exact absurd (eq_of_beq ha ▸ List.mem_map_of_mem LogRecord.id h) hnd.1
        refine ⟨[], rest, by simp [ham], ?_, ?_⟩
        · rw [eraseFirstLog, if_pos ha, List.nil_append]
        · rw [List.nil_append]
          intro hmr
          exact hnd.1 (ham ▸ List.mem_map_of_mem LogRecord.id hmr)
      · have hmr : m ∈ rest := by
          rcases List.mem_cons.mp hm with h | h
          · have haa : (a.id == m.id) = true := by simp [h]
            exact absurd haa ha
          · exact h
        rcases ih hmr hnd.2 with ⟨pre, post, hsplit, herase, hnotin⟩
        refine ⟨a :: pre, post, by rw [List.cons_append, hsplit], ?_, ?_⟩
        · rw [eraseFirstLog, if_neg ha, herase, List.cons_append]
        · rw [List.cons_append]
          intro hmem
          rcases List.mem_cons.mp hmem with h | h
          · have haa : (a.id == m.id) = true := by simp [h]
            exact ha haa
          · exact hnotin h

/-! ### Characterization lemmas for the two operations -/

theorem add_tiffin_duplicate (db : DB) (cid date : Nat) (slot operator : String)
    (now : Nat) (hdup : db.logs.any (dupKey cid (dateOnly date) slot) = true) :
    add_tiffin db cid date slot operator now = .error .duplicateKey := by
  rw [add_tiffin, if_pos hdup]

theorem add_tiffin_ok_noRollover (db : DB) (cid date : Nat)
    (slot operator : String) (now : Nat) (c : Customer)
    (hdup : db.logs.any (dupKey cid (dateOnly date) slot) = false)
    (hfind : db.customers.find? (fun x => x.id == cid) = some c)
    (hlim : c.current_cycle.tiffins_taken + 1 < c.cycle_limit.getD 30) :
    add_tiffin db cid date slot operator now =
      .ok ({ customers := updateFirstCustomer db.customers cid
               (fun _ => incTiffins c),
             logs := db.logs ++ [newLog db cid date slot operator now],
             nextId := db.nextId + 1 }, now) := by
  rw [add_tiffin, if_neg (by simp [hdup])]
  simp only [hfind]
  rw [if_neg]
  simp only [incTiffins]
  exact not_le.mpr hlim

theorem add_tiffin_ok_rollover (db : DB) (cid date : Nat)
    (slot operator : String) (now : Nat) (c : Customer)
    (hdup : db.logs.any (dupKey cid (dateOnly date) slot) = false)
    (hfind : db.customers.find? (fun x => x.id == cid) = some c)
    (hlim : c.cycle_limit.getD 30 ≤ c.current_cycle.tiffins_taken + 1) :
    add_tiffin db cid date slot operator now =
      .ok ({ customers := updateFirstCustomer db.customers cid
               (fun _ => applyRollover
                 (db.logs ++ [newLog db cid date slot operator now]) cid now
                 (incTiffins c)),
             logs := db.logs ++ [newLog db cid date slot operator now],
             nextId := db.nextId + 1 }, now) := by
  rw [add_tiffin, if_neg (by simp [hdup])]
  simp only [hfind]
  rw [if_pos]
  simp only [incTiffins]
  exact hlim

theorem undo_last_tiffin_noLogs (db : DB) (cid now : Nat)
    (h : ∀ l ∈ db.logs, l.customer_id ≠ cid) :
    undo_last_tiffin db cid now = .error .noLogsToUndo := by
  rw [undo_last_tiffin]
  simp only [findLastLog_eq_none db.logs cid h]

theorem undo_last_tiffin_expired (db : DB) (cid now : Nat) (m : LogRecord)
    (hlast : findLastLog db.logs cid = some m)
    (hwin : m.timestamp < now - UNDO_WINDOW) :
    undo_last_tiffin db cid now = .error .undoWindowExpired := by
  rw [undo_last_tiffin]
  simp only [hlast]
  rw [if_pos hwin]

theorem undo_last_tiffin_ok (db : DB) (cid now : Nat) (m : LogRecord)
    (hlast : findLastLog db.logs cid = some m)
    (hwin : ¬ m.timestamp < now - UNDO_WINDOW) :
    undo_last_tiffin db cid now =
      .ok ({ db with
               logs := eraseFirstLog db.logs m.id,
               customers := updateFirstCustomer db.customers cid decTiffins },
            m.id) := by
  rw [undo_last_tiffin]
  simp only [hlast]
  rw [if_neg hwin, if_pos]
  exact List.any_eq_true.mpr
    ⟨m, (findLastLog_mem db.logs cid m hlast).1, by simp⟩

theorem add_tiffin_ok_inv (db : DB) (cid date : Nat) (slot operator : String)
    (now : Nat) (db' : DB) (ts : Nat)
    (h : add_tiffin db cid date slot operator now = .ok (db', ts)) :
    db.logs.any (dupKey cid (dateOnly date) slot) = false ∧
    ts = now ∧
    db'.logs = db.logs ++ [newLog db cid date slot operator now] ∧
    db'.nextId = db.nextId + 1 ∧
    ∃ c, db.customers.find? (fun x => x.id == cid) = some c ∧
      ((c.cycle_limit.getD 30 ≤ c.current_cycle.tiffins_taken + 1 ∧
        db'.customers = updateFirstCustomer db.customers cid (fun _ =>
          applyRollover (db.logs ++ [newLog db cid date slot operator now])
            cid now (incTiffins c))) ∨
       (c.current_cycle.tiffins_taken + 1 < c.cycle_limit.getD 30 ∧
        db'.customers = updateFirstCustomer db.customers cid
          (fun _ => incTiffins c))) := by
  by_cases hdup : db.logs.any (dupKey cid (dateOnly date) slot) = true
  · rw [add_tiffin_duplicate db cid date slot operator now hdup] at h
    exact absurd h (by simp)
  · have hdup' : db.logs.any (dupKey cid (dateOnly date) slot) = false := by
      simpa using hdup
    cases hfind : db.customers.find? (fun x => x.id == cid) with
    | none =>
        rw [add_tiffin, if_neg (by simp [hdup'])] at h
        simp only [hfind] at h
        exact absurd h (by simp)
    | some c =>
        by_cases hlim : c.cycle_limit.getD 30 ≤ c.current_cycle.tiffins_taken + 1
        · rw [add_tiffin_ok_rollover db cid date slot operator now c hdup' hfind
            hlim] at h
          injection h with h
          injection h with h1 h2
          subst h2
          refine ⟨hdup', rfl, ?_, ?_, c, rfl, Or.inl ⟨hlim, ?_⟩⟩ <;>
            rw [← h1]
        · have hlim' : c.current_cycle.tiffins_taken + 1 < c.cycle_limit.getD 30 :=
            lt_of_not_le hlim
          rw [add_tiffin_ok_noRollover db cid date slot operator now c hdup' hfind
            hlim'] at h
          injection h with h
          injection h with h1 h2
          subst h2
          refine ⟨hdup', rfl, ?_, ?_, c, rfl, Or.inr ⟨hlim', ?_⟩⟩ <;>
            rw [← h1]

theorem undo_last_tiffin_ok_inv (db : DB) (cid now : Nat) (db' : DB) (rid : Nat)
    (h : undo_last_tiffin db cid now = .ok (db', rid)) :
    ∃ m, findLastLog db.logs cid = some m ∧
      ¬ m.timestamp < now - UNDO_WINDOW ∧
      rid = m.id ∧
      db'.logs = eraseFirstLog db.logs m.id ∧
      db'.customers = updateFirstCustomer db.customers cid decTiffins ∧
      db'.nextId = db.nextId := by
  cases hlast : findLastLog db.logs cid with
  | none =>
      rw [undo_last_tiffin] at h
      simp only [hlast] at h
      exact absurd h (by simp)
  | some m =>
      by_cases hwin : m.timestamp < now - UNDO_WINDOW
      · rw [undo_last_tiffin_expired db cid now m hlast hwin] at h
        exact absurd h (by simp)
      · rw [undo_last_tiffin_ok db cid now m hlast hwin] at h
        injection h with h
        injection h with h1 h2
        subst h2
        exact ⟨m, rfl, hwin, rfl, by rw [← h1], by rw [← h1], by rw [← h1]⟩

theorem mem_insertByDateDesc (x l : LogRecord) (ls : List LogRecord) :
    x ∈ insertByDateDesc l ls ↔ x = l ∨ x ∈ ls := by
  induction ls with
  | nil => simp [insertByDateDesc]
  | cons a rest ih =>
      rw [insertByDateDesc]
      by_cases h : a.date ≤ l.date
      · rw [if_pos h]
        simp [List.mem_cons]
      · rw [if_neg h]
        simp only [List.mem_cons, ih]
        tauto

theorem mem_sortByDateDesc (x : LogRecord) (ls : List LogRecord) :
    x ∈ sortByDateDesc ls ↔ x ∈ ls := by
  induction ls with
  | nil => simp [sortByDateDesc]
  | cons a rest ih =>
      rw [show sortByDateDesc (a :: rest) = insertByDateDesc a (sortByDateDesc rest) from rfl,
        mem_insertByDateDesc]
      simp only [List.mem_cons, ih]

theorem mem_of_mem_get_reports (db : DB) (slot : Option String)
    (startDate endDate : Option Nat) (x : LogRecord)
    (h : x ∈ get_reports db slot startDate endDate) : x ∈ db.logs := by
  rw [get_reports, mem_sortByDateDesc] at h
  exact (List.mem_filter.mp h).1

/-! ### The claims -/

/-- C1: whenever the post-increment counter reaches cycle_limit,
`add_tiffin` appends exactly one cycle_history entry carrying that counter,
amount = counter × price_per_tiffin, status Unpaid, end_date = now, and
replaces current_cycle by a fresh Active cycle with counter 0 starting at
midnight of the day after now. -/
theorem claim1_rollover (db : DB) (cid date : Nat) (slot operator : String)
    (now : Nat) (c : Customer)
    (hdup : db.logs.any (dupKey cid (dateOnly date) slot) = false)
    (hfind : db.customers.find? (fun x => x.id == cid) = some c)
    (hlim : c.cycle_limit.getD 30 ≤ c.current_cycle.tiffins_taken + 1) :
    ∃ db', add_tiffin db cid date slot operator now = .ok (db', now) ∧
      ∃ c', db'.customers.find? (fun x => x.id == cid) = some c' ∧
        c'.cycle_history = c.cycle_history ++
          [{ start_date := c.current_cycle.start_date,
             end_date := now,
             tiffins_taken := c.current_cycle.tiffins_taken + 1,
             day_count := slotCount db'.logs cid "day" c.current_cycle.start_date now,
             night_count := slotCount db'.logs cid "night" c.current_cycle.start_date now,
             amount := (c.current_cycle.tiffins_taken + 1) * c.price_per_tiffin.getD 0,
             status := "Unpaid" }] ∧
        c'.current_cycle = { start_date := dateOnly now + minutesPerDay,
                             tiffins_taken := 0, status := "Active" } := by
  refine ⟨_, add_tiffin_ok_rollover db cid date slot operator now c hdup hfind hlim,
    applyRollover (db.logs ++ [newLog db cid date slot operator now]) cid now
      (incTiffins c),
    updateFirstCustomer_find? db.customers cid _ c hfind rfl, rfl, rfl⟩

/-- Witness for C1: the spec's own scenario, cycle_limit 2 and price 10;
the second recording rolls the cycle over with tiffins_taken 2, amount 20. -/
theorem claim1_rollover_witness :
    add_tiffin sampleDB 1 0 "day" "staff" 30 = .ok (sampleDB1, 30) ∧
    (∃ db', add_tiffin sampleDB1 1 0 "night" "staff" 40 = .ok (db', 40) ∧
      ∃ c', db'.customers.find? (fun x => x.id == 1) = some c' ∧
        c'.cycle_history = sampleCustomer.cycle_history ++
          [{ start_date := 0, end_date := 40, tiffins_taken := 2,
             day_count := slotCount db'.logs 1 "day" 0 40,
             night_count := slotCount db'.logs 1 "night" 0 40,
             amount := 20, status := "Unpaid" }] ∧
        c'.current_cycle = { start_date := 1440, tiffins_taken := 0,
                             status := "Active" }) := by
  refine ⟨by rfl, ?_⟩
  exact claim1_rollover sampleDB1 1 0 "night" "staff" 40
    { sampleCustomer with current_cycle :=
        { start_date := 0, tiffins_taken := 1, status := "Active" } }
    (by decide) (by decide) (by decide)

/-- C3: a `record_delivery` for a (customer, normalized date, slot) that
already has a record fails with the duplicate error and writes nothing, and
key-uniqueness of the log store is preserved by every successful insert. -/
theorem claim3_duplicate_rejected (db : DB) (cid date : Nat)
    (slot operator : String) (now : Nat) :
    ((∃ l ∈ db.logs, l.customer_id = cid ∧ l.date = dateOnly date ∧
        l.slot = slot) →
      add_tiffin db cid date slot operator now = .error .duplicateKey) ∧
    (KeyUnique db.logs →
      ∀ db' ts, add_tiffin db cid date slot operator now = .ok (db', ts) →
        KeyUnique db'.logs) := by
  constructor
  · rintro ⟨l, hl, h1, h2, h3⟩
    exact add_tiffin_duplicate db cid date slot operator now
      (List.any_eq_true.mpr ⟨l, hl, by simp [dupKey, h1, h2, h3]⟩)
  · intro hKU db' ts hok
    obtain ⟨hdup, -, hlogs, -, -⟩ :=
      add_tiffin_ok_inv db cid date slot operator now db' ts hok
    rw [hlogs, KeyUnique, List.pairwise_append]
    refine ⟨hKU, List.pairwise_singleton _ _, ?_⟩
    intro a ha b hb
    simp only [List.mem_singleton] at hb
    subst hb
    intro hconj
    have hkey : dupKey cid (dateOnly date) slot a = true := by
      simp only [newLog] at hconj
      simp [dupKey, hconj.1, hconj.2.1, hconj.2.2]
    have : db.logs.any (dupKey cid (dateOnly date) slot) = true :=
      List.any_eq_true.mpr ⟨a, ha, hkey⟩
    rw [hdup] at this
    exact absurd this (by simp)

/-- Witness for C3: a second day-slot recording for the already-logged
(customer 6, date 0, day) fails with the duplicate error. -/
theorem claim3_duplicate_rejected_witness :
    (∃ l ∈ loggedDB.logs, l.customer_id = 6 ∧ l.date = dateOnly 0 ∧
      l.slot = "day") ∧
    add_tiffin loggedDB 6 0 "day" "staff" 200 = .error .duplicateKey :=
  ⟨by decide,
   (claim3_duplicate_rejected loggedDB 6 0 "day" "staff" 200).1 (by decide)⟩

/-- C4: given a most recent record, undo succeeds exactly when that record
is no older than now − undo_window; in particular a record created at T is
still undoable at T + window − ε and rejected as expired at T + window + ε. -/
theorem claim4_undo_window (db : DB) (cid : Nat) (m : LogRecord)
    (hlast : findLastLog db.logs cid = some m) :
    (∀ now, (∃ db' rid, undo_last_tiffin db cid now = .ok (db', rid)) ↔
      ¬ m.timestamp < now - UNDO_WINDOW) ∧
    (∀ ε, 0 < ε → ε ≤ UNDO_WINDOW →
      ∃ db' rid, undo_last_tiffin db cid (m.timestamp + UNDO_WINDOW - ε) =
        .ok (db', rid)) ∧
    (∀ ε, 0 < ε →
      undo_last_tiffin db cid (m.timestamp + UNDO_WINDOW + ε) =
        .error .undoWindowExpired) := by
  have hiff : ∀ now, (∃ db' rid, undo_last_tiffin db cid now = .ok (db', rid)) ↔
      ¬ m.timestamp < now - UNDO_WINDOW := by
    intro now
    constructor
    · rintro ⟨db', rid, hok⟩
      obtain ⟨m2, hm2, hwin, -⟩ := undo_last_tiffin_ok_inv db cid now db' rid hok
      rw [hlast] at hm2
      injection hm2 with hm2
      rw [hm2]
      exact hwin
    · intro hwin
      exact ⟨_, _, undo_last_tiffin_ok db cid now m hlast hwin⟩
  refine ⟨hiff, ?_, ?_⟩
  · intro ε hε hεW
    exact (hiff _).mpr (by omega)
  · intro ε hε
    exact undo_last_tiffin_expired db cid _ m hlast (by omega)

/-- Witness for C4: the record created at instant 100 is undoable at 104
(= 100 + 5 − 1) and expired at 106 (= 100 + 5 + 1). -/
theorem claim4_undo_window_witness :
    findLastLog loggedDB.logs 6 =
      some { id := 0, customer_id := 6, date := 0, slot := "day",
             timestamp := 100, operator := "staff" } ∧
    (∃ db' rid, undo_last_tiffin loggedDB 6 104 = .ok (db', rid)) ∧
    undo_last_tiffin loggedDB 6 106 = .error .undoWindowExpired := by
  have h := claim4_undo_window loggedDB 6
    { id := 0, customer_id := 6, date := 0, slot := "day", timestamp := 100,
      operator := "staff" } (by decide)
  exact ⟨by decide, h.2.1 1 (by decide) (by decide), h.2.2 1 (by decide)⟩

/-- C5: with at least one in-window record, undo picks the record with the
greatest creation timestamp, deletes exactly that record while decrementing
the live counter by 1, and returns its id; with no records it fails with the
no-records error. -/
theorem claim5_undo_latest (db : DB) (cid now : Nat) :
    ((∀ l ∈ db.logs, l.customer_id ≠ cid) →
      undo_last_tiffin db cid now = .error .noLogsToUndo) ∧
    (∀ m, findLastLog db.logs cid = some m →
      ¬ m.timestamp < now - UNDO_WINDOW →
      (db.logs.map LogRecord.id).Nodup →
      m ∈ db.logs ∧ m.customer_id = cid ∧
      (∀ l ∈ db.logs, l.customer_id = cid → l.timestamp ≤ m.timestamp) ∧
      ∃ db', undo_last_tiffin db cid now = .ok (db', m.id) ∧
        (∃ pre post, db.logs = pre ++ m :: post ∧ db'.logs = pre ++ post ∧
          m ∉ db'.logs) ∧
        ∀ c, db.customers.find? (fun x => x.id == cid) = some c →
          db'.customers.find? (fun x => x.id == cid) = some (decTiffins c)) := by
  constructor
  · exact undo_last_tiffin_noLogs db cid now
  · intro m hlast hwin hnd
    obtain ⟨hm, hcid⟩ := findLastLog_mem db.logs cid m hlast
    refine ⟨hm, hcid, findLastLog_maximal db.logs cid m hlast,
      _, undo_last_tiffin_ok db cid now m hlast hwin, ?_, ?_⟩
    · obtain ⟨pre, post, hsplit, herase, hnot⟩ :=
        eraseFirstLog_decomp db.logs m hm hnd
      exact ⟨pre, post, hsplit, herase, herase ▸ hnot⟩
    · intro c hc
      exact updateFirstCustomer_find? db.customers cid decTiffins c hc rfl

/-- Witness for C5: undoing customer 6 at instant 103 removes the single
record (id 0) and decrements the counter. -/
theorem claim5_undo_latest_witness :
    (¬ (100 : Nat) < 103 - UNDO_WINDOW) ∧
    (loggedDB.logs.map LogRecord.id).Nodup ∧
    ∃ db', undo_last_tiffin loggedDB 6 103 = .ok (db', 0) ∧
      ∀ c, loggedDB.customers.find? (fun x => x.id == 6) = some c →
        db'.customers.find? (fun x => x.id == 6) = some (decTiffins c) := by
  have h := (claim5_undo_latest loggedDB 6 103).2
    { id := 0, customer_id := 6, date := 0, slot := "day", timestamp := 100,
      operator := "staff" } (by decide) (by decide) (by decide)
  obtain ⟨-, -, -, db', hok, -, hdec⟩ := h
  exact ⟨by decide, by decide, db', hok, hdec⟩

/-- C7: `add_tiffin` performs no slot validation: a slot value that is
neither "day" nor "night" is accepted and a record is inserted, while the
spec requires an InvalidSlot rejection before any write. -/
theorem claim7_no_slot_validation :
    add_tiffin sampleDB 1 0 "brunch" "staff" 30 =
      .ok ({ customers := [{ sampleCustomer with current_cycle :=
               { start_date := 0, tiffins_taken := 1, status := "Active" } }],
             logs := [{ id := 0, customer_id := 1, date := 0, slot := "brunch",
                        timestamp := 30, operator := "staff" }],
             nextId := 1 }, 30) := by rfl

/-- C9: a successful undo only deletes one log record and decrements the
live counter; cycle_history, the live cycle's start_date and status, and
the id supply are untouched, even right after a rollover. -/
theorem claim9_undo_frame (db : DB) (cid now : Nat) (db' : DB) (rid : Nat)
    (h : undo_last_tiffin db cid now = .ok (db', rid)) :
    db'.logs = eraseFirstLog db.logs rid ∧
    db'.nextId = db.nextId ∧
    db'.customers = updateFirstCustomer db.customers cid decTiffins ∧
    (∀ c, db.customers.find? (fun x => x.id == cid) = some c →
      db'.customers.find? (fun x => x.id == cid) = some (decTiffins c) ∧
      (decTiffins c).cycle_history = c.cycle_history ∧
      (decTiffins c).current_cycle.start_date = c.current_cycle.start_date ∧
      (decTiffins c).current_cycle.status = c.current_cycle.status ∧
      (decTiffins c).current_cycle.tiffins_taken =
        c.current_cycle.tiffins_taken - 1) ∧
    (db.customers.find? (fun x => x.id == cid) = none →
      db'.customers = db.customers) := by
  obtain ⟨m, hlast, hwin, hrid, hlogs, hcust, hnext⟩ :=
    undo_last_tiffin_ok_inv db cid now db' rid h
  subst hrid
  refine ⟨hlogs, hnext, hcust, ?_, ?_⟩
  · intro c hc
    refine ⟨?_, rfl, rfl, rfl, rfl⟩
    rw [hcust]
    exact updateFirstCustomer_find? db.customers cid decTiffins c hc rfl
  · intro hnone
    rw [hcust, updateFirstCustomer_of_find?_none db.customers cid decTiffins hnone]

/-- Witness for C9: undoing the delivery that rolled customer 3's cycle over
leaves the history entry and the fresh cycle's start_date in place. -/
theorem claim9_undo_frame_witness :
    limit1DBneg.logs = eraseFirstLog limit1DBrolled.logs 0 ∧
    limit1DBneg.nextId = limit1DBrolled.nextId ∧
    limit1DBneg.customers =
      updateFirstCustomer limit1DBrolled.customers 3 decTiffins ∧
    (∀ c, limit1DBrolled.customers.find? (fun x => x.id == 3) = some c →
      limit1DBneg.customers.find? (fun x => x.id == 3) = some (decTiffins c) ∧
      (decTiffins c).cycle_history = c.cycle_history ∧
      (decTiffins c).current_cycle.start_date = c.current_cycle.start_date ∧
      (decTiffins c).current_cycle.status = c.current_cycle.status ∧
      (decTiffins c).current_cycle.tiffins_taken =
        c.current_cycle.tiffins_taken - 1) ∧
    (limit1DBrolled.customers.find? (fun x => x.id == 3) = none →
      limit1DBneg.customers = limit1DBrolled.customers) :=
  claim9_undo_frame limit1DBrolled 3 12 limit1DBneg 0 (by rfl)

/-- C10 counterexample: for a customer document with no cycle_limit value
the rollover decision does use the default 30: at post-increment counter 30
the cycle rolls over, at 29 it does not. -/
theorem claim10_counterexample :
    add_tiffin noLimitDB 5 0 "day" "staff" 10 =
      .ok ({ customers := [{ noLimitCustomer with
               current_cycle := { start_date := 1440, tiffins_taken := 0,
                                  status := "Active" },
               cycle_history := [{ start_date := 0, end_date := 10,
                                   tiffins_taken := 30, day_count := 1,
                                   night_count := 0, amount := 300,
                                   status := "Unpaid" }] }],
             logs := [{ id := 0, customer_id := 5, date := 0, slot := "day",
                        timestamp := 10, operator := "staff" }],
             nextId := 1 }, 10) ∧
    add_tiffin noLimitDB28 5 0 "day" "staff" 10 =
      .ok ({ customers := [{ noLimitCustomer with
               current_cycle := { start_date := 0, tiffins_taken := 29,
                                  status := "Active" } }],
             logs := [{ id := 0, customer_id := 5, date := 0, slot := "day",
                        timestamp := 10, operator := "staff" }],
             nextId := 1 }, 10) := ⟨by rfl, by rfl⟩

/-- C10 amended: for a customer document lacking a cycle_limit value,
`add_tiffin` substitutes the default 30 when deciding whether the
post-increment counter triggers a rollover. -/
theorem claim10_amended (db : DB) (cid date : Nat) (slot operator : String)
    (now : Nat) (c : Customer)
    (hfind : db.customers.find? (fun x => x.id == cid) = some c)
    (hnone : c.cycle_limit = none) :
    ∀ db' ts, add_tiffin db cid date slot operator now = .ok (db', ts) →
      ∃ c', db'.customers.find? (fun x => x.id == cid) = some c' ∧
        (c'.cycle_history.length = c.cycle_history.length + 1 ↔
          (30 : Int) ≤ c.current_cycle.tiffins_taken + 1) := by
  intro db' ts hok
  obtain ⟨-, -, -, -, c2, hfind2, hcase⟩ :=
    add_tiffin_ok_inv db cid date slot operator now db' ts hok
  rw [hfind] at hfind2
  injection hfind2 with hfind2
  subst hfind2
  rw [hnone] at hcase
  simp only [Option.getD_none] at hcase
  rcases hcase with ⟨hlim, hcust⟩ | ⟨hlim, hcust⟩
  · have hfindc : db'.customers.find? (fun x => x.id == cid) =
        some (applyRollover (db.logs ++ [newLog db cid date slot operator now])
          cid now (incTiffins c)) := by
      rw [hcust]
      exact updateFirstCustomer_find? db.customers cid _ c hfind rfl
    refine ⟨_, hfindc, ?_⟩
    constructor
    · intro _
      exact hlim
    · intro _
      simp [applyRollover, rolloverEntry, incTiffins]
  · have hfindc : db'.customers.find? (fun x => x.id == cid) =
        some (incTiffins c) := by
      rw [hcust]
      exact updateFirstCustomer_find? db.customers cid _ c hfind rfl
    refine ⟨_, hfindc, ?_⟩
    constructor
    · intro hlen
      exact absurd hlen (by simp [incTiffins])
    · intro h30
      exact absurd h30 (not_le.mpr hlim)

/-- Witness for C10 amended: customer 5 has no cycle_limit; the delivery at
counter 29 → 30 appends exactly one history entry. -/
theorem claim10_amended_witness :
    ∃ c', ({ customers := [{ noLimitCustomer with
               current_cycle := { start_date := 1440, tiffins_taken := 0,
                                  status := "Active" },
               cycle_history := [{ start_date := 0, end_date := 10,
                                   tiffins_taken := 30, day_count := 1,
                                   night_count := 0, amount := 300,
                                   status := "Unpaid" }] }],
             logs := [{ id := 0, customer_id := 5, date := 0, slot := "day",
                        timestamp := 10, operator := "staff" }],
             nextId := 1 } : DB).customers.find? (fun x => x.id == 5) =
        some c' ∧
      (c'.cycle_history.length = noLimitCustomer.cycle_history.length + 1 ↔
        (30 : Int) ≤ noLimitCustomer.current_cycle.tiffins_taken + 1) :=
  claim10_amended noLimitDB 5 0 "day" "staff" 10 noLimitCustomer
    (by decide) (by decide) _ 10 (by rfl)

/-- C2 counterexample: one successful, rollover-free recording whose date
lies before current_cycle.start_date leaves the counter at 1 while no
extant record is dated on or after start_date. -/
theorem claim2_counterexample :
    add_tiffin lateCycleDB 4 0 "day" "staff" 1500 =
      .ok (lateCycleDBafter, 1500) ∧
    lateCycleDBafter.customers.map
      (fun c => c.current_cycle.tiffins_taken) = [1] ∧
    countSince lateCycleDBafter 4 1440 = 0 ∧
    ((1 : Int) ≠ (0 : Nat)) :=
  ⟨by rfl, by decide, by decide, by decide⟩

/-- C6 counterexample: when the recording triggers a rollover, record
followed immediately by undo leaves the counter at -1, not at its
pre-record value 0. -/
theorem claim6_counterexample :
    limit1Customer.current_cycle.tiffins_taken = 0 ∧
    add_tiffin limit1DB 3 0 "day" "staff" 10 = .ok (limit1DBrolled, 10) ∧
    undo_last_tiffin limit1DBrolled 3 10 = .ok (limit1DBneg, 0) ∧
    limit1DBneg.customers.map
      (fun c => c.current_cycle.tiffins_taken) = [-1] ∧
    ((-1 : Int) ≠ 0) :=
  ⟨by rfl, by rfl, by rfl, by decide, by decide⟩

/-- C8 counterexample: undoing the delivery that triggered a rollover
drives the fresh cycle's counter to -1. -/
theorem claim8_counterexample :
    add_tiffin limit1DB 3 0 "day" "staff" 10 = .ok (limit1DBrolled, 10) ∧
    undo_last_tiffin limit1DBrolled 3 12 = .ok (limit1DBneg, 0) ∧
    limit1DBneg.customers.map
      (fun c => c.current_cycle.tiffins_taken) = [-1] ∧
    ¬ (0 : Int) ≤ -1 :=
  ⟨by rfl, by rfl, by decide, by decide⟩

/-- C8 amended: over any successful sequence of record/undo operations in
which every undo happens while the live counter is at least 1, the counter
stays non-negative (an undo while the counter is 0, as after a rollover,
is exactly the excluded case). -/
theorem claim8_amended (cid : Nat) (db db' : DB) (ops : List Op) (c : Customer)
    (hfind : db.customers.find? (fun x => x.id == cid) = some c)
    (h0 : 0 ≤ c.current_cycle.tiffins_taken)
    (hrun : runGuardedUndo cid db ops = some db') :
    ∃ c', db'.customers.find? (fun x => x.id == cid) = some c' ∧
      0 ≤ c'.current_cycle.tiffins_taken := by
  induction ops generalizing db c with
  | nil =>
      rw [runGuardedUndo] at hrun
      injection hrun with hrun
      subst hrun
      exact ⟨c, hfind, h0⟩
  | cons op rest ih =>
      rw [runGuardedUndo] at hrun
      cases hstep : stepGuardedUndo cid db op with
      | none =>
          rw [hstep] at hrun
          exact absurd hrun (by simp)
      | some db1 =>
          rw [hstep] at hrun
          cases op with
          | record date slot operator now =>
              simp only [stepGuardedUndo] at hstep
              cases hadd : add_tiffin db cid date slot operator now with
              | error e =>
                  simp only [hadd] at hstep
                  exact absurd hstep (by simp)
              | ok p =>
                  obtain ⟨dbx, ts⟩ := p
                  simp only [hadd] at hstep
                  injection hstep with hstep
                  subst hstep
                  obtain ⟨-, -, -, -, c2, hfind2, hcase⟩ :=
                    add_tiffin_ok_inv db cid date slot operator now dbx ts hadd
                  rw [hfind] at hfind2
                  injection hfind2 with he
                  subst he
                  rcases hcase with ⟨-, hcust⟩ | ⟨-, hcust⟩
                  · refine ih dbx
                      (applyRollover (db.logs ++
                        [newLog db cid date slot operator now]) cid now
                        (incTiffins c)) ?_ ?_ hrun
                    · rw [hcust]
                      exact updateFirstCustomer_find? db.customers cid _ c
                        hfind rfl
                    · simp [applyRollover]
                  · refine ih dbx (incTiffins c) ?_ ?_ hrun
                    · rw [hcust]
                      exact updateFirstCustomer_find? db.customers cid _ c
                        hfind rfl
                    · simp only [incTiffins]
                      omega
          | undo now =>
              simp only [stepGuardedUndo] at hstep
              simp only [hfind] at hstep
              by_cases hge : 1 ≤ c.current_cycle.tiffins_taken
              · rw [if_pos hge] at hstep
                cases hundo : undo_last_tiffin db cid now with
                | error e =>
                    simp only [hundo] at hstep
                    exact absurd hstep (by simp)
                | ok p =>
                    obtain ⟨dbx, rid⟩ := p
                    simp only [hundo] at hstep
                    injection hstep with hstep
                    subst hstep
                    obtain ⟨m, -, -, -, -, hcust, -⟩ :=
                      undo_last_tiffin_ok_inv db cid now dbx rid hundo
                    refine ih dbx (decTiffins c) ?_ ?_ hrun
                    · rw [hcust]
                      exact updateFirstCustomer_find? db.customers cid
                        decTiffins c hfind rfl
                    · simp only [decTiffins]
                      omega
              · rw [if_neg hge] at hstep
                exact absurd hstep (by simp)

/-- Witness for C8 amended: record, record (rollover), record, undo with
the counter at 1; the counter ends at 0. -/
theorem claim8_amended_witness :
    ∃ c', sampleDBguarded.customers.find? (fun x => x.id == 1) = some c' ∧
      0 ≤ c'.current_cycle.tiffins_taken :=
  claim8_amended 1 sampleDB sampleDBguarded
    [Op.record 0 "day" "staff" 10, Op.record 0 "night" "staff" 20,
     Op.record 1440 "day" "staff" 1500, Op.undo 1502]
    sampleCustomer (by decide) (by decide) (by rfl)

theorem stepNoRollover_preserves (cid s : Nat) (db db1 : DB) (op : Op)
    (hinv : CounterInv db cid s)
    (hstep : stepNoRollover cid db op = some db1) :
    CounterInv db1 cid s := by
  obtain ⟨⟨c, hfind, hs, hcount⟩, hdates, hnd, hids⟩ := hinv
  cases op with
  | record date slot operator now =>
      simp only [stepNoRollover] at hstep
      simp only [hfind] at hstep
      split at hstep
      · rename_i hcond
        obtain ⟨hlim, hdate⟩ := hcond
        rw [hs] at hdate
        cases hadd : add_tiffin db cid date slot operator now with
        | error e =>
            simp only [hadd] at hstep
            exact absurd hstep (by simp)
        | ok p =>
            obtain ⟨dbx, ts⟩ := p
            simp only [hadd] at hstep
            injection hstep with hstep
            subst hstep
            obtain ⟨hdup, -, hlogs, hnext, c2, hfind2, hcase⟩ :=
              add_tiffin_ok_inv db cid date slot operator now dbx ts hadd
            rw [hfind] at hfind2
            injection hfind2 with he
            subst he
            rcases hcase with ⟨hl, -⟩ | ⟨-, hcust⟩
            · exact absurd hl (not_le.mpr hlim)
            · refine ⟨⟨incTiffins c, ?_, hs, ?_⟩, ?_, ?_, ?_⟩
              · rw [hcust]
                exact updateFirstCustomer_find? db.customers cid _ c hfind rfl
              · have hcnt1 : countSince dbx cid s = countSince db cid s + 1 := by
                  rw [countSince, countSince, hlogs, List.filter_append]
                  simp [newLog, hdate]
                rw [hcnt1]
                simp only [incTiffins]
                rw [hcount]
                push_cast
                ring
              · intro l hl hc
                rw [hlogs] at hl
                rcases List.mem_append.mp hl with h | h
                · exact hdates l h hc
                · simp only [List.mem_singleton] at h
                  subst h
                  simpa [newLog] using hdate
              · rw [hlogs]
                simp only [List.map_append, List.map_cons, List.map_nil]
                rw [List.nodup_append]
                refine ⟨hnd, List.nodup_singleton _, ?_⟩
                intro a ha hb
                simp only [List.mem_singleton] at hb
                subst hb
                obtain ⟨l, hl, hla⟩ := List.mem_map.mp ha
                have hlt := hids l hl
                simp only [newLog] at hla
                omega
              · intro l hl
                rw [hlogs] at hl
                rw [hnext]
                rcases List.mem_append.mp hl with h | h
                · exact Nat.lt_succ_of_lt (hids l h)
                · simp only [List.mem_singleton] at h
                  subst h
                  simp [newLog]
      · exact absurd hstep (by simp)
  | undo now =>
      simp only [stepNoRollover] at hstep
      cases hundo : undo_last_tiffin db cid now with
      | error e =>
          simp only [hundo] at hstep
          exact absurd hstep (by simp)
      | ok p =>
          obtain ⟨dbx, rid⟩ := p
          simp only [hundo] at hstep
          injection hstep with hstep
          subst hstep
          obtain ⟨m, hlast, -, -, hlogs, hcust, hnext⟩ :=
            undo_last_tiffin_ok_inv db cid now dbx rid hundo
          obtain ⟨hm, hcid⟩ := findLastLog_mem db.logs cid m hlast
          obtain ⟨pre, post, hsplit, herase, -⟩ :=
            eraseFirstLog_decomp db.logs m hm hnd
          have hpm : (m.customer_id == cid && decide (s ≤ m.date)) = true := by
            simp [hcid, hdates m hm hcid]
          have h1 : countSince db cid s =
              ((pre.filter (fun l => l.customer_id == cid &&
                  decide (s ≤ l.date))).length +
               (post.filter (fun l => l.customer_id == cid &&
                  decide (s ≤ l.date))).length) + 1 := by
            rw [countSince, hsplit, List.filter_append, List.filter_cons,
              if_pos hpm]
            simp only [List.length_append, List.length_cons]
            omega
          have h2 : countSince dbx cid s =
              (pre.filter (fun l => l.customer_id == cid &&
                  decide (s ≤ l.date))).length +
              (post.filter (fun l => l.customer_id == cid &&
                  decide (s ≤ l.date))).length := by
            rw [countSince, hlogs, herase, List.filter_append]
            simp only [List.length_append]
          refine ⟨⟨decTiffins c, ?_, hs, ?_⟩, ?_, ?_, ?_⟩
          · rw [hcust]
            exact updateFirstCustomer_find? db.customers cid decTiffins c
              hfind rfl
          · simp only [decTiffins]
            rw [hcount, h1, h2]
            push_cast
            ring
          · intro l hl hc
            refine hdates l ?_ hc
            rw [hlogs, herase] at hl
            rw [hsplit]
            rcases List.mem_append.mp hl with h | h
            · exact List.mem_append.mpr (Or.inl h)
            · exact List.mem_append.mpr (Or.inr (List.mem_cons_of_mem m h))
          · have hsub : dbx.logs.Sublist db.logs := by
              rw [hlogs, herase, hsplit]
              exact List.Sublist.append (List.Sublist.refl pre)
                (List.sublist_cons_self m post)
            exact hnd.sublist (hsub.map LogRecord.id)
          · intro l hl
            rw [hnext]
            refine hids l ?_
            rw [hlogs, herase] at hl
            rw [hsplit]
            rcases List.mem_append.mp hl with h | h
            · exact List.mem_append.mpr (Or.inl h)
            · exact List.mem_append.mpr (Or.inr (List.mem_cons_of_mem m h))

/-- C2 amended: starting from a customer with a fresh counter and no
records, after any successful sequence of record/undo operations in which
no recording triggers a rollover and no recording is dated before the live
cycle's start_date, the counter equals the number of extant records dated
on or after current_cycle.start_date. -/
theorem claim2_amended (cid : Nat) (db db' : DB) (ops : List Op) (c : Customer)
    (hfind : db.customers.find? (fun x => x.id == cid) = some c)
    (hc0 : c.current_cycle.tiffins_taken = 0)
    (hlogs : ∀ l ∈ db.logs, l.customer_id ≠ cid)
    (hnd : (db.logs.map LogRecord.id).Nodup)
    (hids : ∀ l ∈ db.logs, l.id < db.nextId)
    (hrun : runNoRollover cid db ops = some db') :
    ∃ c', db'.customers.find? (fun x => x.id == cid) = some c' ∧
      c'.current_cycle.tiffins_taken =
        (countSince db' cid c'.current_cycle.start_date : Int) := by
  have hinv : CounterInv db cid c.current_cycle.start_date := by
    refine ⟨⟨c, hfind, rfl, ?_⟩, ?_, hnd, hids⟩
    · rw [hc0, countSince]
      have hnil : db.logs.filter (fun l => l.customer_id == cid &&
          decide (c.current_cycle.start_date ≤ l.date)) = [] := by
        rw [List.filter_eq_nil_iff]
        intro l hl
        simp [hlogs l hl]
      rw [hnil]
      rfl
    · intro l hl hc
      exact absurd hc (hlogs l hl)
  have main : ∀ opl dba, CounterInv dba cid c.current_cycle.start_date →
      runNoRollover cid dba opl = some db' →
      CounterInv db' cid c.current_cycle.start_date := by
    intro opl
    induction opl with
    | nil =>
        intro dba hi h
        rw [runNoRollover] at h
        injection h with h
        subst h
        exact hi
    | cons op rest ih =>
        intro dba hi h
        rw [runNoRollover] at h
        cases hstep : stepNoRollover cid dba op with
        | none =>
            rw [hstep] at h
            exact absurd h (by simp)
        | some db1 =>
            rw [hstep] at h
            exact ih db1
              (stepNoRollover_preserves cid c.current_cycle.start_date dba db1
                op hi hstep) h
  obtain ⟨⟨c', hf', hs', hcnt'⟩, -, -, -⟩ := main ops db hinv hrun
  refine ⟨c', hf', ?_⟩
  rw [hs']
  exact hcnt'

/-- Witness for C2 amended: record, undo, record on a fresh customer; the
counter ends at 1 with exactly one extant record in the live cycle. -/
theorem claim2_amended_witness :
    ∃ c', sampleDBroundtrip.customers.find? (fun x => x.id == 1) = some c' ∧
      c'.current_cycle.tiffins_taken =
        (countSince sampleDBroundtrip 1 c'.current_cycle.start_date : Int) :=
  claim2_amended 1 sampleDB sampleDBroundtrip
    [Op.record 0 "day" "staff" 10, Op.undo 12, Op.record 0 "night" "staff" 20]
    sampleCustomer (by decide) (by decide) (by decide) (by decide) (by decide)
    (by rfl)

/-- C6 amended: when the recording does not trigger a rollover (and clocks
are sane: every stored record is no newer than now, and no stored record
already carries the next id), record followed immediately by undo restores
the customers collection (hence the pre-record counter) and the logs
collection, the record is gone from every query result, and a subsequent
recording for the same (customer, date, slot) succeeds again. -/
theorem claim6_amended (db : DB) (cid date : Nat) (slot operator : String)
    (now : Nat) (c : Customer)
    (hfind : db.customers.find? (fun x => x.id == cid) = some c)
    (hdup : db.logs.any (dupKey cid (dateOnly date) slot) = false)
    (hlim : c.current_cycle.tiffins_taken + 1 < c.cycle_limit.getD 30)
    (hts : ∀ l ∈ db.logs, l.timestamp ≤ now)
    (hids : ∀ l ∈ db.logs, l.id ≠ db.nextId) :
    ∃ db1, add_tiffin db cid date slot operator now = .ok (db1, now) ∧
    ∃ db2, undo_last_tiffin db1 cid now = .ok (db2, db.nextId) ∧
      db2.customers = db.customers ∧
      db2.logs = db.logs ∧
      (∀ s a b, newLog db cid date slot operator now ∉ get_reports db2 s a b) ∧
      (∀ now2, ∃ db3, add_tiffin db2 cid date slot operator now2 =
        .ok (db3, now2)) := by
  have hcidbeq : (c.id == cid) = true := by
    simpa using List.find?_some hfind
  have hdi : decTiffins (incTiffins c) = c := by
    cases c with
    | mk cidf nm ph ad sd pr cl cc ch =>
        cases cc with
        | mk sdate tt st => simp [decTiffins, incTiffins]
  have hadd := add_tiffin_ok_noRollover db cid date slot operator now c hdup
    hfind hlim
  refine ⟨_, hadd, ?_⟩
  have hfl : findLastLog (db.logs ++ [newLog db cid date slot operator now])
      cid = some (newLog db cid date slot operator now) :=
    findLastLog_append_last db.logs cid _ rfl hts
  have hwin : ¬ (newLog db cid date slot operator now).timestamp <
      now - UNDO_WINDOW := by
    simp only [newLog]
    omega
  have hundo := undo_last_tiffin_ok
    { customers := updateFirstCustomer db.customers cid (fun _ => incTiffins c),
      logs := db.logs ++ [newLog db cid date slot operator now],
      nextId := db.nextId + 1 } cid now
    (newLog db cid date slot operator now) hfl hwin
  have hfcomp : ∀ x : Customer, (x.id == cid) = true →
      (((fun _ : Customer => incTiffins c) x).id == cid) = true := by
    intro x _
    simpa [incTiffins] using hcidbeq
  have hcusts : updateFirstCustomer (updateFirstCustomer db.customers cid
      (fun _ => incTiffins c)) cid decTiffins = db.customers := by
    rw [updateFirstCustomer_comp db.customers cid _ decTiffins hfcomp]
    have hfun : (fun x : Customer =>
        decTiffins ((fun _ : Customer => incTiffins c) x)) =
        fun _ : Customer => c := by
      funext x
      rw [hdi]
    rw [hfun]
    exact updateFirstCustomer_self db.customers cid c hfind
  have hlogs2 : eraseFirstLog
      (db.logs ++ [newLog db cid date slot operator now])
      (newLog db cid date slot operator now).id = db.logs :=
    eraseFirstLog_append_new db.logs _
      (by
        intro l hl
        simpa [newLog] using hids l hl)
  refine ⟨_, hundo, hcusts, hlogs2, ?_, ?_⟩
  · intro s a b hmem
    have hin := mem_of_mem_get_reports _ s a b _ hmem
    have hin2 : newLog db cid date slot operator now ∈ db.logs := by
      rw [← hlogs2]
      exact hin
    exact hids _ hin2 rfl
  · intro now2
    refine ⟨_, add_tiffin_ok_noRollover _ cid date slot operator now2 c ?_ ?_
      hlim⟩
    · show (eraseFirstLog
          (db.logs ++ [newLog db cid date slot operator now])
          (newLog db cid date slot operator now).id).any
          (dupKey cid (dateOnly date) slot) = false
      rw [hlogs2]
      exact hdup
    · show (updateFirstCustomer (updateFirstCustomer db.customers cid
          (fun _ => incTiffins c)) cid decTiffins).find?
          (fun x => x.id == cid) = some c
      rw [hcusts]
      exact hfind

/-- Witness for C6 amended: record then undo on the fresh sample customer
restores the store, and re-recording the same slot succeeds. -/
theorem claim6_amended_witness :
    ∃ db1, add_tiffin sampleDB 1 0 "day" "staff" 10 = .ok (db1, 10) ∧
    ∃ db2, undo_last_tiffin db1 1 10 = .ok (db2, 0) ∧
      db2.customers = sampleDB.customers ∧
      db2.logs = sampleDB.logs ∧
      (∀ s a b, newLog sampleDB 1 0 "day" "staff" 10 ∉ get_reports db2 s a b) ∧
      (∀ now2, ∃ db3, add_tiffin db2 1 0 "day" "staff" now2 =
        .ok (db3, now2)) :=
  claim6_amended sampleDB 1 0 "day" "staff" 10 sampleCustomer (by decide)
    (by decide) (by decide) (by decide) (by decide)

end MessChecker
